import Mathlib

/-!
Verification of the Local-CLI-Runner core: a shallow embedding of the Go
packages `runner` (ring buffer, process model, manager, runner) and
`connector` (Claude line parser), with theorems about admission control,
the job state machine, the ring buffer, the result cache, event fan-out,
stop idempotence and the cleanup sweep.

Machine integers are modelled as `Nat`/`Int`; wall-clock instants and
durations as `Nat` (the unit is irrelevant; `tenMinutes` is the TTL
constant used by the result cache).  Go code that panics (slice index out
of range, modulus by zero) is embedded as an `Option`-returning function,
`none` marking the panic.  Each Go method of the source acquires the
owning mutex for its whole body, so a concurrent execution is modelled as
a sequential interleaving of these atomic operations.
-/

namespace CliRunner

/-! ### Status constants (source: `runner` package, part_005) -/

def StatusPending : String := "pending"
def StatusRunning : String := "running"
def StatusCompleted : String := "completed"
def StatusFailed : String := "failed"
def StatusStopped : String := "stopped"

/-- Terminal statuses of the job state machine. -/
def isTerminal (s : String) : Bool :=
  s == StatusCompleted || s == StatusFailed || s == StatusStopped

/-! ### Ring buffer (source: `ring_buffer.go`, part_004) -/

/-- Embedding of `RingBuffer[T]`: `data` is the backing slice, `size` the
capacity, `head` the next write position, `count` the current number of
items.  The Go mutex is dropped: every method is atomic. -/
structure RingBuffer (T : Type) where
  data : List T
  size : Nat
  head : Nat
  count : Nat
deriving DecidableEq

/-- Embedding of `NewRingBuffer`: `make([]T, size)` fills the backing
slice with zero values, modelled by `default`.  No validation of `size`
is performed, exactly as in the source. -/
def NewRingBuffer (T : Type) [Inhabited T] (size : Nat) : RingBuffer T :=
  { data := List.replicate size default, size := size, head := 0, count := 0 }

/-- Embedding of `RingBuffer.Push`.  The Go body executes
`rb.data[rb.head] = item` and `rb.head = (rb.head + 1) % rb.size`; the
first panics when `head` is out of range and the second when `size = 0`,
so the embedding returns `none` exactly in those cases. -/
def RingBuffer.Push (rb : RingBuffer T) (item : T) : Option (RingBuffer T) :=
  if rb.head < rb.data.length ∧ 0 < rb.size then
    some { rb with
      data := rb.data.set rb.head item,
      head := (rb.head + 1) % rb.size,
      count := if rb.count < rb.size then rb.count + 1 else rb.count }
  else none

/-- Embedding of `RingBuffer.ToSlice`: oldest-to-newest snapshot. -/
def RingBuffer.ToSlice (rb : RingBuffer T) : List T :=
  if rb.count = 0 then []
  else if rb.count < rb.size then rb.data.take rb.count
  else rb.data.drop rb.head ++ rb.data.take rb.head

/-- Embedding of `RingBuffer.Len`. -/
def RingBuffer.Len (rb : RingBuffer T) : Nat := rb.count

/-- Structural invariant of a well-formed ring buffer: the backing slice
has length `size`, the write position is in range, and `count` never
exceeds the capacity.  `NewRingBuffer` establishes it for every capacity
`≥ 1` and `Push` preserves it. -/
def RBInv (rb : RingBuffer T) : Prop :=
  rb.data.length = rb.size ∧ rb.head < rb.size ∧ rb.count ≤ rb.size

instance (rb : RingBuffer T) : Decidable (RBInv rb) := by
  unfold RBInv; infer_instance

/-- Total version of `Push`, usable once `RBInv` rules the panic out. -/
def RingBuffer.pushTotal (rb : RingBuffer T) (item : T) : RingBuffer T :=
  { rb with
    data := rb.data.set rb.head item,
    head := (rb.head + 1) % rb.size,
    count := if rb.count < rb.size then rb.count + 1 else rb.count }

/-- Iterated total push, first list element pushed first. -/
def RingBuffer.pushAllTotal (rb : RingBuffer T) (xs : List T) : RingBuffer T :=
  xs.foldl RingBuffer.pushTotal rb

/-- Iterated source-level push, propagating the panic case. -/
def RingBuffer.pushAll (rb : RingBuffer T) (xs : List T) : Option (RingBuffer T) :=
  xs.foldlM RingBuffer.Push rb

/-- Rotated view of the backing slice starting at the oldest slot. -/
def RingBuffer.view (rb : RingBuffer T) : List T :=
  rb.data.drop rb.head ++ rb.data.take rb.head

theorem RingBuffer.push_eq_pushTotal {rb : RingBuffer T} (h : RBInv rb) (x : T) :
    rb.Push x = some (rb.pushTotal x) := by
  obtain ⟨hlen, hhead, -⟩ := h
  simp [RingBuffer.Push, RingBuffer.pushTotal, hlen, hhead,
    Nat.lt_of_le_of_lt (Nat.zero_le _) hhead]

theorem RingBuffer.rbInv_pushTotal {rb : RingBuffer T} (h : RBInv rb) (x : T) :
    RBInv (rb.pushTotal x) := by
  obtain ⟨hlen, hhead, hcount⟩ := h
  have hsz : 0 < rb.size := Nat.lt_of_le_of_lt (Nat.zero_le _) hhead
  refine ⟨by simp [RingBuffer.pushTotal, hlen], Nat.mod_lt _ hsz, ?_⟩
  by_cases hc : rb.count < rb.size <;> simp [RingBuffer.pushTotal, hc] <;> omega

theorem RingBuffer.size_pushTotal (rb : RingBuffer T) (x : T) :
    (rb.pushTotal x).size = rb.size := rfl

theorem RingBuffer.count_pushTotal (rb : RingBuffer T) (x : T) :
    (rb.pushTotal x).count = if rb.count < rb.size then rb.count + 1 else rb.count := rfl

theorem RingBuffer.length_view {rb : RingBuffer T} (h : RBInv rb) :
    rb.view.length = rb.size := by
  obtain ⟨hlen, hhead, -⟩ := h
  simp [RingBuffer.view]; omega

/-- One push rotates the view: the oldest element is dropped and the new
one appended at the newest end. -/
theorem RingBuffer.view_pushTotal {rb : RingBuffer T} (h : RBInv rb) (x : T) :
    (rb.pushTotal x).view = rb.view.drop 1 ++ [x] := by
  obtain ⟨hlen, hhead, -⟩ := h
  have hd : rb.head < rb.data.length := by omega
  have hset : rb.data.set rb.head x
      = (rb.data.take rb.head ++ [x]) ++ rb.data.drop (rb.head + 1) := by
    rw [List.set_eq_take_cons_drop x hd]; simp
  have hlt : (rb.data.take rb.head ++ [x]).length = rb.head + 1 := by
    simp [List.length_take, Nat.min_eq_left (Nat.le_of_lt hd)]
  have hrhs : rb.view.drop 1 ++ [x]
      = rb.data.drop (rb.head + 1) ++ (rb.data.take rb.head ++ [x]) := by
    have hcons : rb.data.drop rb.head
        = rb.data.get ⟨rb.head, hd⟩ :: rb.data.drop (rb.head + 1) :=
      List.drop_eq_get_cons hd
    unfold RingBuffer.view
    rw [hcons, List.cons_append, List.drop_one, List.tail_cons, List.append_assoc]
  rcases Nat.lt_or_ge (rb.head + 1) rb.size with hc | hc
  · have hmod : (rb.head + 1) % rb.size = rb.head + 1 := Nat.mod_eq_of_lt hc
    show (rb.data.set rb.head x).drop ((rb.head + 1) % rb.size)
        ++ (rb.data.set rb.head x).take ((rb.head + 1) % rb.size)
        = rb.view.drop 1 ++ [x]
    rw [hmod, hset, List.drop_left' hlt, List.take_left' hlt, hrhs]
  · have hsz : rb.head + 1 = rb.size := by omega
    have hmod : (rb.head + 1) % rb.size = 0 := by
      rw [hsz]; exact Nat.mod_self _
    show (rb.data.set rb.head x).drop ((rb.head + 1) % rb.size)
        ++ (rb.data.set rb.head x).take ((rb.head + 1) % rb.size)
        = rb.view.drop 1 ++ [x]
    have hnil : rb.data.drop (rb.head + 1) = [] :=
      List.drop_eq_nil_iff.mpr (by omega)
    rw [hmod, hrhs, hnil]
    simp [hset, hnil]

/-- Pushing a whole list shifts the view by the list's length. -/
theorem RingBuffer.view_pushAllTotal {rb : RingBuffer T} (h : RBInv rb) (xs : List T) :
    (rb.pushAllTotal xs).view = (rb.view ++ xs).drop xs.length := by
  induction xs generalizing rb with
  | nil => simp [RingBuffer.pushAllTotal]
  | cons x xs ih =>
    have h1 := RingBuffer.rbInv_pushTotal h x
    have hstep : rb.pushAllTotal (x :: xs) = (rb.pushTotal x).pushAllTotal xs := rfl
    rw [hstep, ih h1, RingBuffer.view_pushTotal h x]
    obtain ⟨v0, vt, hv⟩ : ∃ v0 vt, rb.view = v0 :: vt := by
      have hl := RingBuffer.length_view ⟨h.1, h.2.1, h.2.2⟩
      have hpos : 0 < rb.size := Nat.lt_of_le_of_lt (Nat.zero_le _) h.2.1
      cases hview : rb.view with
      | nil => rw [hview] at hl; simp at hl; omega
      | cons a t => exact ⟨a, t, rfl⟩
    rw [hv]
    simp

theorem RingBuffer.size_pushAllTotal (rb : RingBuffer T) (xs : List T) :
    (rb.pushAllTotal xs).size = rb.size := by
  induction xs generalizing rb with
  | nil => rfl
  | cons x xs ih => exact ih (rb.pushTotal x)

theorem RingBuffer.rbInv_pushAllTotal {rb : RingBuffer T} (h : RBInv rb) (xs : List T) :
    RBInv (rb.pushAllTotal xs) := by
  induction xs generalizing rb with
  | nil => exact h
  | cons x xs ih => exact ih (RingBuffer.rbInv_pushTotal h x)

theorem RingBuffer.count_pushAllTotal {rb : RingBuffer T} (h : RBInv rb) (xs : List T) :
    (rb.pushAllTotal xs).count = min (rb.count + xs.length) rb.size := by
  induction xs generalizing rb with
  | nil =>
    have := h.2.2
    simp [RingBuffer.pushAllTotal]; omega
  | cons x xs ih =>
    have hstep : rb.pushAllTotal (x :: xs) = (rb.pushTotal x).pushAllTotal xs := rfl
    rw [hstep, ih (RingBuffer.rbInv_pushTotal h x)]
    have hc : (rb.pushTotal x).count = min (rb.count + 1) rb.size := by
      have := h.2.2
      by_cases hlt : rb.count < rb.size <;> simp [RingBuffer.pushTotal, hlt] <;> omega
    rw [hc, RingBuffer.size_pushTotal]
    simp only [List.length_cons]
    omega

/-- Under the invariant the fallible push chain never hits the panic case
and agrees with the total version. -/
theorem RingBuffer.pushAll_eq_pushAllTotal {rb : RingBuffer T} (h : RBInv rb)
    (xs : List T) : rb.pushAll xs = some (rb.pushAllTotal xs) := by
  induction xs generalizing rb with
  | nil => rfl
  | cons x xs ih =>
    have hstep : rb.pushAll (x :: xs)
        = (rb.Push x).bind (fun b => b.pushAll xs) := rfl
    rw [hstep, RingBuffer.push_eq_pushTotal h x, Option.some_bind,
      ih (RingBuffer.rbInv_pushTotal h x)]
    rfl

theorem RingBuffer.rbInv_new {T : Type} [Inhabited T] {c : Nat} (hc : 1 ≤ c) :
    RBInv (NewRingBuffer T c) := by
  refine ⟨by simp [NewRingBuffer], ?_, by simp [NewRingBuffer]⟩
  simpa [NewRingBuffer] using hc

theorem RingBuffer.view_new (T : Type) [Inhabited T] (c : Nat) :
    (NewRingBuffer T c).view = List.replicate c default := by
  simp [NewRingBuffer, RingBuffer.view]

/-- When the buffer is full the snapshot is exactly the rotated view. -/
theorem RingBuffer.toSlice_of_full {rb : RingBuffer T} (hsz : 0 < rb.size)
    (hc : rb.count = rb.size) : rb.ToSlice = rb.view := by
  have h0 : ¬ rb.count = 0 := by omega
  have h1 : ¬ rb.count < rb.size := by omega
  simp [RingBuffer.ToSlice, RingBuffer.view, h0, h1]

/-! ### Events, results, channels, processes (source: part_005, second file) -/

/-- Embedding of `Event` (fields `Type`, `Data`, `Timestamp`).  The Go
comment on the struct lists the possible types as stream, result, error,
done.  Payloads are opaque, modelled as `String`. -/
structure Event where
  type : String
  data : String
  timestamp : Nat
deriving DecidableEq

instance : Inhabited Event := ⟨{ type := "", data := "", timestamp := 0 }⟩

/-- Embedding of `Result` (fields `ExitCode`, `Output`, `Error`). -/
structure Result where
  exitCode : Int
  output : Option String
  error : String
deriving DecidableEq

/-- Model of a buffered Go channel of events: `capacity` slots and `buf`
holding the messages sent and not yet received. -/
structure Channel where
  capacity : Nat
  buf : List Event
deriving DecidableEq

/-- Embedding of `Process` together with its synchronized internal
state.  The `cancel` and `cmd` pointers are modelled by the presence
flags `hasCancel`/`hasCmd` plus the effect flags
`cancelTriggered`/`killed`; the `done` channel by `doneClosed`. -/
structure Process where
  id : String
  connector : String
  prompt : String
  workDir : String
  status : String
  startedAt : Nat
  completedAt : Option Nat
  events : RingBuffer Event
  result : Option Result
  subscribers : List (String × Channel)
  hasCancel : Bool
  cancelTriggered : Bool
  hasCmd : Bool
  killed : Bool
  doneClosed : Bool
  resultData : Option String
  resultExpiry : Option Nat
deriving DecidableEq

/-- Embedding of `NewProcess`; `now` stands for the `time.Now()` read
for `StartedAt`. -/
def NewProcess (id connector prompt workDir : String) (bufferSize : Nat)
    (now : Nat) : Process :=
  { id := id, connector := connector, prompt := prompt, workDir := workDir,
    status := StatusPending, startedAt := now, completedAt := none,
    events := NewRingBuffer Event bufferSize, result := none,
    subscribers := [], hasCancel := false, cancelTriggered := false,
    hasCmd := false, killed := false, doneClosed := false,
    resultData := none, resultExpiry := none }

/-- Nonblocking channel send, the `select` with a `default` arm in
`AddEvent`: the event is enqueued when the channel has free capacity and
silently dropped otherwise. -/
def Channel.trySend (ch : Channel) (e : Event) : Channel :=
  if ch.buf.length < ch.capacity then { ch with buf := ch.buf ++ [e] } else ch

/-- Embedding of `Process.AddEvent`: pushes to the ring buffer (source
`rb.Push`, which panics on a malformed buffer, hence `Option`) and fans
the event out to every subscriber with a nonblocking send, all under one
lock acquisition. -/
def Process.AddEvent (p : Process) (event : Event) : Option Process :=
  (p.events.Push event).map fun rb =>
    { p with events := rb,
             subscribers := p.subscribers.map fun s => (s.1, s.2.trySend event) }

/-- Embedding of `Process.Subscribe`: registers a fresh channel with
capacity 100 under the subscriber id (Go map assignment). -/
def Process.Subscribe (p : Process) (subscriberID : String) :
    Channel × Process :=
  let ch : Channel := { capacity := 100, buf := [] }
  (ch, { p with subscribers :=
      (subscriberID, ch) :: p.subscribers.filter fun s => s.1 != subscriberID })

/-- Embedding of `Process.Unsubscribe`. -/
def Process.Unsubscribe (p : Process) (subscriberID : String) : Process :=
  { p with subscribers := p.subscribers.filter fun s => s.1 != subscriberID }

/-- Embedding of `Process.GetEvents`. -/
def Process.GetEvents (p : Process) : List Event := p.events.ToSlice

/-- Embedding of `Process.SetStatus`: the assignment is unconditional,
whatever the current status is. -/
def Process.SetStatus (p : Process) (status : String) : Process :=
  { p with status := status }

/-- Embedding of `Process.SetResult`. -/
def Process.SetResult (p : Process) (result : Result) : Process :=
  { p with result := some result }

/-- Embedding of `Process.GetResult`. -/
def Process.GetResult (p : Process) : Option Result := p.result

/-- Embedding of `Process.Stop` at instant `now`: trigger the
cancellation handle when present, kill the OS process when present,
close the `done` channel unless already closed, and only when the status
is still pending or running move it to stopped and set `CompletedAt`. -/
def Process.Stop (p : Process) (now : Nat) : Process :=
  let p1 := if p.hasCancel then { p with cancelTriggered := true } else p
  let p2 := if p1.hasCmd then { p1 with killed := true } else p1
  let p3 := if p2.doneClosed then p2 else { p2 with doneClosed := true }
  if p3.status = StatusPending ∨ p3.status = StatusRunning then
    { p3 with status := StatusStopped, completedAt := some now }
  else p3

/-- Embedding of `Process.Close` at instant `now`: close the `done`
channel unless already closed, close and drop all subscriber channels,
and set `CompletedAt` only when it is still unset. -/
def Process.Close (p : Process) (now : Nat) : Process :=
  let p1 := if p.doneClosed then p else { p with doneClosed := true }
  let p2 := { p1 with subscribers := [] }
  if p2.completedAt = none then { p2 with completedAt := some now } else p2

/-- TTL of the result cache, `10 * time.Minute` counted in seconds. -/
def tenMinutes : Nat := 600

/-- Embedding of `Process.SetResultData` at instant `now`. -/
def Process.SetResultData (p : Process) (data : String) (now : Nat) : Process :=
  { p with resultData := some data, resultExpiry := some (now + tenMinutes) }

/-- Embedding of `Process.GetResultData` read at instant `now`: `nil`
when the expiry is unset or `time.Now().After(expiry)` holds (strictly
later than the expiry), the stored payload otherwise.  The expiry is
consulted only here, at read time. -/
def Process.GetResultData (p : Process) (now : Nat) : Option String :=
  match p.resultExpiry with
  | none => none
  | some expiry => if expiry < now then none else p.resultData

/-- Embedding of `Process.HasValidResultData` read at instant `now`. -/
def Process.HasValidResultData (p : Process) (now : Nat) : Bool :=
  p.resultData.isSome && p.resultExpiry.isSome &&
    match p.resultExpiry with
    | none => false
    | some expiry => decide (now < expiry)

/-! ### Manager (source: part_005, first file) -/

/-- Errors of the `runner` package: `ErrProcessNotFound`,
`ErrMaxConcurrent`, and the ad-hoc `cannot remove active process`. -/
inductive RunnerError where
  | processNotFound
  | maxConcurrent
  | cannotRemoveActive
deriving DecidableEq

/-- Embedding of `Manager` together with the fields of `config.Process`
it consults; `MaxConcurrent` is a Go `int`, hence `Int`. -/
structure Manager where
  processes : List (String × Process)
  maxConcurrent : Int
  cleanupDelay : Nat
  bufferSize : Nat
deriving DecidableEq

/-- Embedding of `NewManager` for a given configuration. -/
def NewManager (maxConcurrent : Int) (cleanupDelay bufferSize : Nat) : Manager :=
  { processes := [], maxConcurrent := maxConcurrent,
    cleanupDelay := cleanupDelay, bufferSize := bufferSize }

/-- Count of processes whose status is pending or running: the loop at
the top of `Manager.Create` and the body of `Manager.Count`. -/
def countActive (l : List (String × Process)) : Nat :=
  l.countP fun e => e.2.status == StatusPending || e.2.status == StatusRunning

/-- Go map assignment `m.processes[id] = process`. -/
def mapSet (l : List (String × Process)) (id : String) (p : Process) :
    List (String × Process) :=
  (id, p) :: l.filter fun e => e.1 != id

/-- Embedding of `Manager.Create`: the admission check and the insertion
happen under one acquisition of the manager mutex, hence as one atomic
step.  `id` stands for the freshly generated UUID and `now` for the
`time.Now()` read inside `NewProcess`.  The untouched manager is
returned alongside the error so that absence of mutation is explicit. -/
def Manager.Create (m : Manager) (connector prompt workDir id : String)
    (now : Nat) : Except RunnerError Process × Manager :=
  let activeCount := countActive m.processes
  if m.maxConcurrent ≤ (activeCount : Int) then
    (Except.error RunnerError.maxConcurrent, m)
  else
    let process := NewProcess id connector prompt workDir m.bufferSize now
    (Except.ok process, { m with processes := mapSet m.processes id process })

/-- Embedding of `Manager.Get`. -/
def Manager.Get (m : Manager) (id : String) : Except RunnerError Process :=
  match m.processes.lookup id with
  | none => Except.error RunnerError.processNotFound
  | some process => Except.ok process

/-- Embedding of `Manager.Count`. -/
def Manager.Count (m : Manager) : Nat := countActive m.processes

/-- Embedding of `Manager.Stop`: look the process up, then delegate to
`Process.Stop` (which mutates the process in place through the shared
pointer). -/
def Manager.Stop (m : Manager) (id : String) (now : Nat) :
    Except RunnerError Unit × Manager :=
  match m.processes.lookup id with
  | none => (Except.error RunnerError.processNotFound, m)
  | some _ =>
    (Except.ok (), { m with processes := m.processes.map fun e =>
        if e.1 == id then (e.1, e.2.Stop now) else e })

/-- Embedding of `Manager.Remove`: absent id fails with not-found; a
process that is not completed, failed or stopped fails with the
cannot-remove-active error; otherwise the entry is deleted. -/
def Manager.Remove (m : Manager) (id : String) :
    Except RunnerError Unit × Manager :=
  match m.processes.lookup id with
  | none => (Except.error RunnerError.processNotFound, m)
  | some process =>
    if process.status ≠ StatusCompleted ∧ process.status ≠ StatusFailed ∧
        process.status ≠ StatusStopped then
      (Except.error RunnerError.cannotRemoveActive, m)
    else
      (Except.ok (), { m with processes := m.processes.filter fun e => e.1 != id })

/-- Embedding of `Manager.cleanup` run at instant `now`: an entry is
kept when it is non-terminal, or has no completion time, or its age
`now - completedAt` is still below the threshold (`CleanupDelay`). -/
def Manager.cleanup (m : Manager) (now : Nat) : Manager :=
  { m with processes := m.processes.filter fun e =>
      if e.2.status != StatusCompleted && e.2.status != StatusFailed &&
          e.2.status != StatusStopped then
        true
      else
        match e.2.completedAt with
        | none => true
        | some t => decide (now - t < m.cleanupDelay) }

/-- Tick instants of the cleanup ticker started by `StartCleanup` at
time 0 that lie at or before `upTo`: the ticker fires at `T, 2T, ...`
where `T` is `CleanupDelay`. -/
def ticks (T upTo : Nat) : List Nat :=
  (List.range (upTo / T)).map fun k => (k + 1) * T

/-- Manager state observed at time `t`: every ticker firing at or before
`t` has applied one `cleanup` sweep. -/
def Manager.sweepUpTo (m : Manager) (t : Nat) : Manager :=
  (ticks m.cleanupDelay t).foldl Manager.cleanup m

/-- One admission request: the descriptive arguments of `Create` plus
the fresh UUID and the clock reading of that call. -/
structure CreateReq where
  connector : String
  prompt : String
  workDir : String
  id : String
  now : Nat
deriving DecidableEq

/-- A sequence of `Create` calls applied in order; failed admissions
leave the state as they found it. -/
def Manager.createSeq (m : Manager) : List CreateReq → Manager
  | [] => m
  | r :: rs => ((m.Create r.connector r.prompt r.workDir r.id r.now).2).createSeq rs

/-! ### Connector parser (source: part_001, second file) and runner
events (source: part_006) -/

/-- Abstraction of one raw output line, by the classes that
`ClaudeConnector.ParseLine` distinguishes: blank after trimming, not
valid JSON, or a JSON document whose top-level `type` field (when
present and a string) is `typeField`; `raw` is the original line. -/
inductive LineShape where
  | blank
  | notJson (raw : String)
  | jsonObj (typeField : Option String) (raw : String)
deriving DecidableEq

/-- Embedding of `ClaudeConnector.ParseLine`: blank and non-JSON lines
are silently skipped; otherwise the event type is `result` exactly when
the `type` field is the string `result`, and the default `stream` in
every other case, with the raw line preserved as the payload.  The
timestamp 0 is overwritten by `streamOutput` before publication. -/
def ClaudeConnector.ParseLine (line : LineShape) : Option Event :=
  match line with
  | .blank => none
  | .notJson _ => none
  | .jsonObj typeField raw =>
    let eventType := if typeField == some "result" then "result" else "stream"
    some { type := eventType, data := raw, timestamp := 0 }

/-- Embedding of the event built by `Runner.sendErrorEvent`. -/
def mkErrorEvent (errorMsg : String) (now : Nat) : Event :=
  { type := "error", data := errorMsg, timestamp := now }

/-- Embedding of the event built by `Runner.sendDoneEvent` (the payload
summarises id, status and result; only the status matters here). -/
def mkDoneEvent (p : Process) (now : Nat) : Event :=
  { type := "done", data := p.status, timestamp := now }

/-! ### Theorems -/

/-- C3: for a ring buffer of capacity `c ≥ 1` and any sequence of
`c + k` pushes (`k ≥ 0`), the chain of source-level pushes never hits a
failure and the snapshot returns exactly `c` items, equal to the last
`c` items pushed, in oldest-to-newest order; moreover a push on a full
well-formed buffer succeeds and silently overwrites exactly the oldest
element.  `Push` is a pure state transformer, so it cannot block. -/
theorem c3_ringBuffer_snapshot {T : Type} [Inhabited T] (c k : Nat)
    (xs : List T) (hc : 1 ≤ c) (hlen : xs.length = c + k) :
    (∃ rb : RingBuffer T, (NewRingBuffer T c).pushAll xs = some rb ∧
      rb.ToSlice = xs.drop k ∧ rb.ToSlice.length = c) ∧
    (∀ (rb : RingBuffer T) (x : T), RBInv rb → rb.count = rb.size →
      rb.Push x = some (rb.pushTotal x) ∧
      (rb.pushTotal x).ToSlice = rb.ToSlice.drop 1 ++ [x]) := by
  have hinv : RBInv (NewRingBuffer T c) := RingBuffer.rbInv_new hc
  constructor
  · refine ⟨(NewRingBuffer T c).pushAllTotal xs,
      RingBuffer.pushAll_eq_pushAllTotal hinv xs, ?_, ?_⟩
    all_goals {
      have hsize : ((NewRingBuffer T c).pushAllTotal xs).size = c := by
        rw [RingBuffer.size_pushAllTotal]; rfl
      have hcount : ((NewRingBuffer T c).pushAllTotal xs).count = c := by
        rw [RingBuffer.count_pushAllTotal hinv]
        show min ((NewRingBuffer T c).count + xs.length) (NewRingBuffer T c).size = c
        simp [NewRingBuffer, hlen]
      have hslice : ((NewRingBuffer T c).pushAllTotal xs).ToSlice = xs.drop k := by
        rw [RingBuffer.toSlice_of_full (by omega) (by omega),
          RingBuffer.view_pushAllTotal hinv xs, RingBuffer.view_new, hlen,
          show c + k = (List.replicate c (default : T)).length + k by simp,
          List.drop_append]
      first
      | exact hslice
      | (rw [hslice]; simp [hlen])
    }
  · intro rb x hrb hfull
    have hsz : 0 < rb.size := Nat.lt_of_le_of_lt (Nat.zero_le _) hrb.2.1
    refine ⟨RingBuffer.push_eq_pushTotal hrb x, ?_⟩
    have hfull2 : (rb.pushTotal x).count = (rb.pushTotal x).size := by
      have : ¬ rb.count < rb.size := by omega
      simp [RingBuffer.pushTotal, this, hfull]
    have hsz2 : 0 < (rb.pushTotal x).size := by
      rw [RingBuffer.size_pushTotal]; exact hsz
    rw [RingBuffer.toSlice_of_full hsz2 hfull2, RingBuffer.toSlice_of_full hsz hfull,
      RingBuffer.view_pushTotal hrb x]

/-- Witness for C3: capacity 2, three pushes, snapshot is the last two
items in order. -/
theorem c3_witness :
    ∃ rb : RingBuffer Nat, (NewRingBuffer Nat 2).pushAll [10, 20, 30] = some rb ∧
      rb.ToSlice = [10, 20, 30].drop 1 ∧ rb.ToSlice.length = 2 :=
  (c3_ringBuffer_snapshot 2 1 [10, 20, 30] (by decide) (by decide)).1

/-- C10: `NewRingBuffer` accepts any capacity without validation (the
buffer it returns records exactly the requested capacity); on a buffer
of capacity 0 every `Push` indexes an empty slice and takes `% 0`,
modelled by the `none` (panic) result, so `Push` is safe only under the
precondition `capacity ≥ 1`, which `NewRingBuffer` turns into the
invariant under which `Push` always succeeds. -/
theorem c10_push_capacity_zero {T : Type} [Inhabited T] (x : T) :
    (∀ c : Nat, (NewRingBuffer T c).size = c ∧ (NewRingBuffer T c).data.length = c) ∧
    (∀ rb : RingBuffer T, rb.size = 0 → rb.Push x = none) ∧
    ((NewRingBuffer T 0).Push x = none) ∧
    (∀ c : Nat, 1 ≤ c → RBInv (NewRingBuffer T c)) ∧
    (∀ rb : RingBuffer T, RBInv rb → (rb.Push x).isSome) := by
  have hz : ∀ rb : RingBuffer T, rb.size = 0 → rb.Push x = none := by
    intro rb h0
    simp [RingBuffer.Push, h0]
  refine ⟨fun c => ⟨rfl, by simp [NewRingBuffer]⟩, hz, hz _ rfl,
    fun c hc => RingBuffer.rbInv_new hc, fun rb h => ?_⟩
  rw [RingBuffer.push_eq_pushTotal h x]
  rfl

/-- Witness for C10: a push on the capacity-0 buffer panics, a push on a
fresh capacity-3 buffer succeeds. -/
theorem c10_witness :
    (NewRingBuffer Nat 0).Push 5 = none ∧ ((NewRingBuffer Nat 3).Push 5).isSome :=
  ⟨(c10_push_capacity_zero 5).2.2.1,
    (c10_push_capacity_zero 5).2.2.2.2 _ (RingBuffer.rbInv_new (by decide))⟩

theorem countActive_mapSet_le (l : List (String × Process)) (id : String)
    (p : Process) (hp : p.status = StatusPending) :
    countActive (mapSet l id p) ≤ countActive l + 1 := by
  have hsub : (l.filter fun e => e.1 != id).Sublist l := List.filter_sublist l
  have hle := hsub.countP_le
    (p := fun e => e.2.status == StatusPending || e.2.status == StatusRunning)
  simp only [countActive, mapSet, List.countP_cons, hp]
  simp only [countActive] at hle
  have hcond : (StatusPending == StatusPending || StatusPending == StatusRunning) = true := by
    decide
  simp only [hcond, if_true]
  omega

theorem Manager.create_maxConcurrent (m : Manager) (c p w id : String) (now : Nat) :
    ((m.Create c p w id now).2).maxConcurrent = m.maxConcurrent := by
  unfold Manager.Create
  by_cases h : m.maxConcurrent ≤ (countActive m.processes : Int) <;> simp [h]

theorem Manager.createSeq_maxConcurrent (m : Manager) (reqs : List CreateReq) :
    (m.createSeq reqs).maxConcurrent = m.maxConcurrent := by
  induction reqs generalizing m with
  | nil => rfl
  | cons r rs ih =>
    rw [show m.createSeq (r :: rs)
        = ((m.Create r.connector r.prompt r.workDir r.id r.now).2).createSeq rs from rfl,
      ih, Manager.create_maxConcurrent]

/-- Admission is preserved by one `Create` call: a state within the
ceiling stays within the ceiling. -/
theorem Manager.create_preserves_ceiling (m : Manager)
    (h0 : (countActive m.processes : Int) ≤ m.maxConcurrent)
    (c p w id : String) (now : Nat) :
    (countActive ((m.Create c p w id now).2).processes : Int)
      ≤ ((m.Create c p w id now).2).maxConcurrent := by
  rw [Manager.create_maxConcurrent]
  unfold Manager.Create
  by_cases h : m.maxConcurrent ≤ (countActive m.processes : Int)
  · simpa [h] using h0
  · simp only [h, if_neg, ite_false]
    have hle := countActive_mapSet_le m.processes id
      (NewProcess id c p w m.bufferSize now) rfl
    push_cast at h ⊢
    omega

/-- C1: starting from a fresh manager with a nonnegative configured
ceiling, after every sequence of `Create` calls the number of jobs in
the table with status pending or running is at most `MaxConcurrent`; and
any single `Create` issued in a state already at or above the ceiling
returns `ErrMaxConcurrent` and returns the job table unchanged.  Each
`Create` holds the manager mutex over its whole check-then-insert body,
so a concurrent pair of calls executes as one of the two sequential
orders covered here and cannot both succeed past the ceiling. -/
theorem c1_admission_ceiling (maxC : Int) (cd bs : Nat)
    (reqs : List CreateReq) (h0 : 0 ≤ maxC) :
    ((countActive ((NewManager maxC cd bs).createSeq reqs).processes : Int) ≤ maxC) ∧
    (∀ (m1 : Manager) (c p w id : String) (now : Nat),
      m1.maxConcurrent ≤ (countActive m1.processes : Int) →
      m1.Create c p w id now = (Except.error RunnerError.maxConcurrent, m1)) := by
  constructor
  · have hgen : ∀ (rs : List CreateReq) (m : Manager),
        (countActive m.processes : Int) ≤ m.maxConcurrent →
        (countActive (m.createSeq rs).processes : Int) ≤ (m.createSeq rs).maxConcurrent := by
      intro rs
      induction rs with
      | nil => intro m hm; exact hm
      | cons r rs ih =>
        intro m hm
        rw [show m.createSeq (r :: rs)
            = ((m.Create r.connector r.prompt r.workDir r.id r.now).2).createSeq rs from rfl]
        exact ih _ (Manager.create_preserves_ceiling m hm _ _ _ _ _)
    have := hgen reqs (NewManager maxC cd bs) (by simpa [NewManager, countActive] using h0)
    rwa [Manager.createSeq_maxConcurrent] at this
  · intro m1 c p w id now h
    unfold Manager.Create
    simp [h]

/-- Witness for C1: ceiling 1, two admission attempts, at most one
pending job in the final table; and a manager at ceiling 0 rejects a
create and is left unchanged. -/
theorem c1_witness :
    ((countActive ((NewManager 1 5 8).createSeq
        [⟨"claude", "p1", "", "a", 0⟩, ⟨"claude", "p2", "", "b", 1⟩]).processes : Int) ≤ 1) ∧
    ((NewManager 0 5 8).Create "claude" "p" "" "c" 2
      = (Except.error RunnerError.maxConcurrent, NewManager 0 5 8)) :=
  ⟨(c1_admission_ceiling 1 5 8 [⟨"claude", "p1", "", "a", 0⟩, ⟨"claude", "p2", "", "b", 1⟩]
      (by decide)).1,
   (c1_admission_ceiling 0 5 8 [] (by decide)).2 (NewManager 0 5 8) "claude" "p" "" "c" 2
      (by decide)⟩

theorem lookup_filter_ne_self (l : List (String × Process)) (id : String) :
    (l.filter fun e => e.1 != id).lookup id = none := by
  induction l with
  | nil => rfl
  | cons e rest ih =>
    by_cases h : e.1 = id
    · simp [List.filter_cons, h, ih]
    · have hne : (e.1 != id) = true := by simp [h]
      have hne2 : (id == e.1) = false := by simp [Ne.symm h]
      simp [List.filter_cons, hne, List.lookup, hne2, ih]

/-- C6: `Remove` fails with not-found when the id is absent; it fails
with the conflict error (cannot remove active process) and leaves the
table unchanged whenever the looked-up job is pending or running; and
when the job's status is completed, failed or stopped it succeeds,
deleting exactly that id from the table and keeping every other entry. -/
theorem c6_remove_semantics (m : Manager) (id : String) :
    (m.processes.lookup id = none →
      m.Remove id = (Except.error RunnerError.processNotFound, m)) ∧
    (∀ p, m.processes.lookup id = some p →
      (p.status = StatusPending ∨ p.status = StatusRunning) →
      m.Remove id = (Except.error RunnerError.cannotRemoveActive, m)) ∧
    (∀ p, m.processes.lookup id = some p → isTerminal p.status →
      (m.Remove id).1 = Except.ok () ∧
      ((m.Remove id).2).processes.lookup id = none ∧
      (∀ e ∈ m.processes, e.1 ≠ id → e ∈ ((m.Remove id).2).processes) ∧
      (∀ e ∈ ((m.Remove id).2).processes, e ∈ m.processes)) := by
  refine ⟨?_, ?_, ?_⟩
  · intro h
    unfold Manager.Remove
    rw [h]
  · intro p hp hs
    unfold Manager.Remove
    rw [hp]
    have hcond : p.status ≠ StatusCompleted ∧ p.status ≠ StatusFailed ∧
        p.status ≠ StatusStopped := by
      rcases hs with hs | hs <;> rw [hs] <;> refine ⟨?_, ?_, ?_⟩ <;> decide
    simp [hcond]
  · intro p hp ht
    have hcond : ¬ (p.status ≠ StatusCompleted ∧ p.status ≠ StatusFailed ∧
        p.status ≠ StatusStopped) := by
      simp only [isTerminal, Bool.or_eq_true, beq_iff_eq] at ht
      tauto
    refine ⟨?_, ?_, ?_, ?_⟩
    · unfold Manager.Remove
      rw [hp]
      simp [hcond]
    · unfold Manager.Remove
      rw [hp]
      simp only [hcond, if_neg, ite_false]
      exact lookup_filter_ne_self m.processes id
    · intro e he hne
      unfold Manager.Remove
      rw [hp]
      simp only [hcond, if_neg, ite_false]
      simp [List.mem_filter, he, hne]
    · intro e he
      unfold Manager.Remove at he
      rw [hp] at he
      simp only [hcond, if_neg, ite_false] at he
      exact (List.mem_filter.mp he).1

/-- Sample terminal process used as a concrete scenario: completed at
time 5. -/
def sampleDone : Process :=
  { NewProcess "a" "claude" "hello" "" 4 0 with
      status := StatusCompleted, completedAt := some 5 }

/-- Sample running process used as a concrete scenario. -/
def sampleRun : Process :=
  (NewProcess "b" "claude" "hi" "" 4 1).SetStatus StatusRunning

/-- Concrete manager holding one terminal and one running job. -/
def sampleManager : Manager :=
  { processes := [("a", sampleDone), ("b", sampleRun)],
    maxConcurrent := 10, cleanupDelay := 10, bufferSize := 4 }

/-- Witness for C6: on the sample manager, removing the running job `b`
fails with the conflict error and mutates nothing, and removing the
terminal job `a` succeeds and deletes it. -/
theorem c6_witness :
    (sampleManager.Remove "b"
      = (Except.error RunnerError.cannotRemoveActive, sampleManager)) ∧
    ((sampleManager.Remove "a").1 = Except.ok () ∧
      ((sampleManager.Remove "a").2).processes.lookup "a" = none) :=
  ⟨(c6_remove_semantics sampleManager "b").2.1 sampleRun (by decide) (Or.inr (by decide)),
   ⟨((c6_remove_semantics sampleManager "a").2.2 sampleDone (by decide) (by decide)).1,
    ((c6_remove_semantics sampleManager "a").2.2 sampleDone (by decide) (by decide)).2.1⟩⟩

theorem Process.stop_status (p : Process) (now : Nat) :
    (p.Stop now).status
      = if p.status = StatusPending ∨ p.status = StatusRunning
        then StatusStopped else p.status := by
  unfold Process.Stop
  cases hc : p.hasCancel <;> cases hk : p.hasCmd <;> cases hd : p.doneClosed <;>
    by_cases hs : p.status = StatusPending ∨ p.status = StatusRunning <;>
      simp [hc, hk, hd, hs]

theorem Process.stop_completedAt (p : Process) (now : Nat) :
    (p.Stop now).completedAt
      = if p.status = StatusPending ∨ p.status = StatusRunning
        then some now else p.completedAt := by
  unfold Process.Stop
  cases hc : p.hasCancel <;> cases hk : p.hasCmd <;> cases hd : p.doneClosed <;>
    by_cases hs : p.status = StatusPending ∨ p.status = StatusRunning <;>
      simp [hc, hk, hd, hs]

theorem Process.stop_doneClosed (p : Process) (now : Nat) :
    (p.Stop now).doneClosed = true := by
  unfold Process.Stop
  cases hc : p.hasCancel <;> cases hk : p.hasCmd <;> cases hd : p.doneClosed <;>
    by_cases hs : p.status = StatusPending ∨ p.status = StatusRunning <;>
      simp [hc, hk, hd, hs]

theorem Process.stop_status_not_active (p : Process) (now : Nat) :
    ¬ ((p.Stop now).status = StatusPending ∨ (p.Stop now).status = StatusRunning) := by
  rw [Process.stop_status]
  by_cases hs : p.status = StatusPending ∨ p.status = StatusRunning
  · simp [hs]; refine ⟨?_, ?_⟩ <;> decide
  · simp [hs]

/-- C8: `Stop` on a job that is still pending or running moves it to
`stopped` with `completedAt` set to the stop instant and the `done`
channel closed; and a second `Stop` — at any later instant — changes
none of the observable state: status, `completedAt` and the `done`
channel all keep the values the first `Stop` left. -/
theorem c8_stop_idempotent (p : Process) (t t2 : Nat) :
    ((p.status = StatusPending ∨ p.status = StatusRunning) →
      (p.Stop t).status = StatusStopped ∧ (p.Stop t).completedAt = some t ∧
      (p.Stop t).doneClosed = true) ∧
    (((p.Stop t).Stop t2).status = (p.Stop t).status ∧
      ((p.Stop t).Stop t2).completedAt = (p.Stop t).completedAt ∧
      ((p.Stop t).Stop t2).doneClosed = (p.Stop t).doneClosed) := by
  have hna := Process.stop_status_not_active p t
  refine ⟨fun hs => ⟨?_, ?_, Process.stop_doneClosed p t⟩, ?_, ?_, ?_⟩
  · rw [Process.stop_status]; simp [hs]
  · rw [Process.stop_completedAt]; simp [hs]
  · rw [Process.stop_status (p.Stop t)]
    simp [hna]
  · rw [Process.stop_completedAt (p.Stop t)]
    simp [hna]
  · rw [Process.stop_doneClosed, Process.stop_doneClosed]

/-- Witness for C8: stopping the sample running job at time 7 yields a
stopped job completed at 7, and a second stop at time 9 observably
changes nothing. -/
theorem c8_witness :
    ((sampleRun.Stop 7).status = StatusStopped ∧
      (sampleRun.Stop 7).completedAt = some 7 ∧
      (sampleRun.Stop 7).doneClosed = true) ∧
    (((sampleRun.Stop 7).Stop 9).status = (sampleRun.Stop 7).status ∧
      ((sampleRun.Stop 7).Stop 9).completedAt = (sampleRun.Stop 7).completedAt ∧
      ((sampleRun.Stop 7).Stop 9).doneClosed = (sampleRun.Stop 7).doneClosed) :=
  ⟨(c8_stop_idempotent sampleRun 7 9).1 (Or.inr (by decide)),
   (c8_stop_idempotent sampleRun 7 9).2⟩

/-- Total counterpart of `AddEvent`, reached whenever the buffer push
succeeds. -/
def Process.addEventTotal (p : Process) (event : Event) : Process :=
  { p with events := p.events.pushTotal event,
           subscribers := p.subscribers.map fun s => (s.1, s.2.trySend event) }

/-- C7: `AddEvent` on a process with a well-formed buffer always
succeeds (as a pure state transformer it cannot block): the event is
pushed to the ring buffer, and each subscriber independently receives
the event exactly when its channel has free capacity, its queue being
left untouched otherwise; a full channel affects neither the buffer push
nor any other subscriber, whose outcome is a function of its own channel
alone. -/
theorem c7_addEvent_fanout (p : Process) (e : Event) (hinv : RBInv p.events) :
    ∃ q, p.AddEvent e = some q ∧
      q.events = p.events.pushTotal e ∧
      q.subscribers.length = p.subscribers.length ∧
      ∀ i s, p.subscribers.get? i = some s →
        ∃ s2, q.subscribers.get? i = some s2 ∧ s2.1 = s.1 ∧
          s2.2.capacity = s.2.capacity ∧
          (s2.2.buf = s.2.buf ++ [e] ∨ s2.2.buf = s.2.buf) ∧
          (s2.2.buf = s.2.buf ++ [e] ↔ s.2.buf.length < s.2.capacity) := by
  refine ⟨p.addEventTotal e, ?_, rfl, by simp [Process.addEventTotal], ?_⟩
  · unfold Process.AddEvent Process.addEventTotal
    rw [RingBuffer.push_eq_pushTotal hinv e]
    rfl
  · intro i s hs
    refine ⟨(s.1, s.2.trySend e), ?_, rfl, ?_, ?_, ?_⟩
    · show (List.map (fun s => (s.1, s.2.trySend e)) p.subscribers).get? i = _
      rw [List.get?_map, hs]
      rfl
    · unfold Channel.trySend
      by_cases h : s.2.buf.length < s.2.capacity <;> simp [h]
    · unfold Channel.trySend
      by_cases h : s.2.buf.length < s.2.capacity <;> simp [h]
    · unfold Channel.trySend
      by_cases h : s.2.buf.length < s.2.capacity
      · simp [h]
      · simp only [h, if_neg, ite_false]
        constructor
        · intro habs
          exact absurd (congrArg List.length habs) (by simp)
        · intro hlt
          exact hlt.elim

/-- Concrete process with one full and one free subscriber channel. -/
def fanoutProc : Process :=
  { NewProcess "c7" "claude" "p" "" 4 0 with
      subscribers :=
        [("full", { capacity := 1, buf := [{ type := "stream", data := "old", timestamp := 1 }] }),
         ("free", { capacity := 1, buf := [] })] }

/-- Event pushed through `fanoutProc` in the C7 witness. -/
def fanoutEvent : Event := { type := "stream", data := "new", timestamp := 2 }

/-- Witness for C7: on `fanoutProc` the add succeeds; the full channel
keeps its single old event (the new one is dropped for it) while the
free channel receives the event. -/
theorem c7_witness :
    ∃ q, fanoutProc.AddEvent fanoutEvent = some q ∧
      q.events = fanoutProc.events.pushTotal fanoutEvent ∧
      q.subscribers.length = fanoutProc.subscribers.length ∧
      ∀ i s, fanoutProc.subscribers.get? i = some s →
        ∃ s2, q.subscribers.get? i = some s2 ∧ s2.1 = s.1 ∧
          s2.2.capacity = s.2.capacity ∧
          (s2.2.buf = s.2.buf ++ [fanoutEvent] ∨ s2.2.buf = s.2.buf) ∧
          (s2.2.buf = s.2.buf ++ [fanoutEvent] ↔ s.2.buf.length < s.2.capacity) :=
  c7_addEvent_fanout fanoutProc fanoutEvent (by decide)

/-- Process whose result cache was populated at time 0, as
`streamOutput` does on a result event. -/
def cachedProc : Process :=
  (NewProcess "c4" "claude" "p" "" 4 0).SetResultData "payload" 0

/-- Counterexample for C4: the claim says a read at or after the expiry
time returns absent, but at exactly the expiry instant
(`0 + tenMinutes`) the code still returns the payload, because the Go
guard `time.Now().After(expiry)` is strict. -/
theorem c4_counterexample :
    cachedProc.GetResultData (0 + tenMinutes) = some "payload" ∧
    ¬ cachedProc.GetResultData (0 + tenMinutes) = none := by
  constructor <;> decide

/-- C4 (amended): before any result event the cached payload is absent;
after a result event at time `s` a read at any instant up to and
including `s + tenMinutes` returns the payload written last, and a read
strictly after `s + tenMinutes` returns absent.  Expiry is decided
lazily inside the read itself — the process state carries only
`{payload, expiry}` and no timer, and is never mutated by a read. -/
theorem c4_result_cache (id conn prompt wd : String) (bs created : Nat)
    (p : Process) (data : String) (s now : Nat) :
    ((NewProcess id conn prompt wd bs created).GetResultData now = none) ∧
    (now ≤ s + tenMinutes →
      (p.SetResultData data s).GetResultData now = some data) ∧
    (s + tenMinutes < now →
      (p.SetResultData data s).GetResultData now = none) := by
  refine ⟨rfl, ?_, ?_⟩
  · intro h
    unfold Process.SetResultData Process.GetResultData
    simp only []
    rw [if_neg (by omega)]
  · intro h
    unfold Process.SetResultData Process.GetResultData
    simp only []
    rw [if_pos (by omega)]

/-- Witness for C4 (amended): reading the sample cache at the expiry
instant returns the payload and reading one instant later returns
absent; a fresh process has no cached payload. -/
theorem c4_witness :
    ((NewProcess "w" "claude" "p" "" 4 0).GetResultData 50 = none) ∧
    ((NewProcess "c4" "claude" "p" "" 4 0).SetResultData "payload" 0).GetResultData
        tenMinutes = some "payload" ∧
    ((NewProcess "c4" "claude" "p" "" 4 0).SetResultData "payload" 0).GetResultData
        (tenMinutes + 1) = none :=
  ⟨(c4_result_cache "w" "claude" "p" "" 4 0
      (NewProcess "w" "claude" "p" "" 4 0) "x" 0 50).1,
   (c4_result_cache "c4" "claude" "p" "" 4 0
      (NewProcess "c4" "claude" "p" "" 4 0) "payload" 0 tenMinutes).2.1 (by decide),
   (c4_result_cache "c4" "claude" "p" "" 4 0
      (NewProcess "c4" "claude" "p" "" 4 0) "payload" 0 (tenMinutes + 1)).2.2 (by decide)⟩

/-- Characterization of one `cleanup` sweep: an entry survives exactly
when it is still in the table and is non-terminal, or carries no
completion time, or its age is below the threshold. -/
theorem keepCond_eq_not_isTerminal (s : String) :
    (s != StatusCompleted && s != StatusFailed && s != StatusStopped)
      = !(isTerminal s) := by
  unfold isTerminal
  cases h1 : s == StatusCompleted <;> cases h2 : s == StatusFailed <;>
    cases h3 : s == StatusStopped <;> simp [bne, h1, h2, h3]

theorem mem_cleanup_iff (m : Manager) (now : Nat) (e : String × Process) :
    e ∈ (m.cleanup now).processes ↔ e ∈ m.processes ∧
      (isTerminal e.2.status = false ∨ e.2.completedAt = none ∨
        ∃ t, e.2.completedAt = some t ∧ now - t < m.cleanupDelay) := by
  unfold Manager.cleanup
  rw [List.mem_filter]
  refine and_congr_right fun _ => ?_
  rw [keepCond_eq_not_isTerminal]
  cases hT : isTerminal e.2.status
  · simp [hT]
  · cases hca : e.2.completedAt with
    | none => simp [hca, hT]
    | some t => simp [hca, hT]

/-- C9 (amended): each `cleanup` sweep run at instant `now` removes from
the table exactly the terminal jobs whose `completedAt` is set and lies
at least `CleanupDelay` in the past; it never removes a pending or
running job, nor a job whose completion is more recent than the
threshold.  A job completed at `t` therefore survives every sweep
running before `t + T` and is removed by the first sweep at or after
`t + T` — with the ticker firing every `T`, absence is guaranteed only
from that tick on (possibly almost `t + 2T`), not at `t + T + ε`. -/
theorem c9_cleanup_sweep (m : Manager) (now : Nat) (e : String × Process) :
    (e ∈ m.processes →
      (e ∈ (m.cleanup now).processes ↔
        (isTerminal e.2.status = false ∨ e.2.completedAt = none ∨
          ∃ t, e.2.completedAt = some t ∧ now - t < m.cleanupDelay))) ∧
    (e ∈ m.processes → (e.2.status = StatusPending ∨ e.2.status = StatusRunning) →
      e ∈ (m.cleanup now).processes) ∧
    (∀ t, e ∈ m.processes → e.2.completedAt = some t → t ≤ now →
      now < t + m.cleanupDelay → e ∈ (m.cleanup now).processes) ∧
    (∀ t, isTerminal e.2.status = true → e.2.completedAt = some t →
      t + m.cleanupDelay ≤ now → e ∉ (m.cleanup now).processes) := by
  refine ⟨?_, ?_, ?_, ?_⟩
  · intro he
    rw [mem_cleanup_iff]
    simp [he]
  · intro he hs
    rw [mem_cleanup_iff]
    refine ⟨he, Or.inl ?_⟩
    rcases hs with h | h <;> rw [h] <;> decide
  · intro t he hca hpast hlt
    rw [mem_cleanup_iff]
    exact ⟨he, Or.inr (Or.inr ⟨t, hca, by omega⟩)⟩
  · intro t ht hca hage habs
    rw [mem_cleanup_iff] at habs
    rcases habs.2 with h | h | ⟨t2, ht2, hlt⟩
    · rw [ht] at h; cases h
    · rw [hca] at h; cases h
    · rw [hca] at ht2
      cases ht2
      omega

/-- Manager for the C9 scenario: one job completed at `t = 5`, sweep
interval `T = 10`. -/
def sweepManager : Manager :=
  { processes := [("a", sampleDone)], maxConcurrent := 10,
    cleanupDelay := 10, bufferSize := 4 }

/-- Counterexample for C9: with `t = 5`, `T = 10`, `ε = 1` the claim
says the job is absent at `t + T + ε = 16`; but the only sweep tick up
to then fires at 10, when the job is 5 time units old, so at time 16
the job is still retrievable via `Get`. -/
theorem c9_counterexample :
    (sweepManager.sweepUpTo 16).Get "a" = Except.ok sampleDone ∧
    (sweepManager.sweepUpTo 14).Get "a" = Except.ok sampleDone := by
  constructor <;> rfl

/-- Witness for C9 (amended): on the scenario manager, a sweep at time
14 (age 9 < 10) keeps the job and a sweep at time 20 (age 15 ≥ 10)
removes it. -/
theorem c9_witness :
    ("a", sampleDone) ∈ (sweepManager.cleanup 14).processes ∧
    ("a", sampleDone) ∉ (sweepManager.cleanup 20).processes :=
  ⟨(c9_cleanup_sweep sweepManager 14 ("a", sampleDone)).2.2.1 5 (by decide) (by decide)
      (by decide) (by decide),
   (c9_cleanup_sweep sweepManager 20 ("a", sampleDone)).2.2.2 5 (by decide) (by decide)
      (by decide)⟩

/-- Job as left by `Runner.Spawn`: created, then `SetStatus(running)`. -/
def spawnedProc : Process :=
  (NewProcess "c2" "claude" "p" "" 4 0).SetStatus StatusRunning

/-- The spawned job after a client `Stop` at time 5. -/
def stoppedProc : Process := spawnedProc.Stop 5

/-- The stopped job after the runner's exit-waiter branch fires: `Stop`
killed the OS process, `cmd.Wait` returned the kill error, the `select`
in `Runner.run` took the `cmdDone` arm and executed the unconditional
`process.SetStatus(StatusFailed)`. -/
def afterWaiter : Process := stoppedProc.SetStatus StatusFailed

/-- C2: evaluation of the code on the racing trace of atomic,
mutex-protected steps `Stop; SetStatus(failed)`, both reachable in
`Runner.run` after a client stop: the job reaches the terminal status
`stopped` with `completedAt` set, and the waiter branch then moves the
status to `failed` — a terminal status changed to a different terminal
status, violating the claimed absorption. -/
theorem c2_terminal_status_overwritten :
    stoppedProc.status = StatusStopped ∧
    isTerminal stoppedProc.status = true ∧
    stoppedProc.completedAt = some 5 ∧
    afterWaiter.status = StatusFailed ∧
    afterWaiter.status ≠ stoppedProc.status := by
  refine ⟨rfl, rfl, rfl, rfl, by decide⟩

/-- Abstraction of a Claude output line carrying a JSON object whose
`type` field is `assistant` — an ordinary understood output line. -/
def assistantLine : LineShape := .jsonObj (some "assistant") "assistant-json"

/-- C5: evaluation of the parser at an understood output line: the event
produced carries the kind `stream`, which is not in the documented set
`output`, `result`, `error`, `done` (the repo docs and the spec name the
output kind `output`, the code emits `stream`). -/
theorem c5_parser_emits_stream_kind :
    ClaudeConnector.ParseLine assistantLine
      = some { type := "stream", data := "assistant-json", timestamp := 0 } ∧
    ¬ ("stream" ∈ (["output", "result", "error", "done"] : List String)) ∧
    (mkErrorEvent "boom" 3).type = "error" ∧
    (mkDoneEvent sampleDone 7).type = "done" := by
  refine ⟨rfl, by decide, rfl, rfl⟩

end CliRunner
